import Mathlib

/-!
Shallow embedding of the middleware composition engine (koa-compose) and of
the request-handling core of the application (handleRequest, respond,
onerror).  Promises are modelled as explicit state-passing computations; the
mutable dispatch cursor of each pipeline invocation (`let index = -1`) is a
cell in an explicit store, so nested pipeline invocations each own a cursor.
-/

namespace Koa

/-- Observable machine state threaded through pipeline invocations.
`cells` models the per-invocation closure variables `index` (one cell is
allocated, initialised to `-1`, each time a composed pipeline is invoked);
`log` models a shared event log that handlers append to. -/
structure PState (E : Type) where
  cells : List Int
  log : List E
deriving DecidableEq

/-- A settled promise computation: runs on a state and yields the new state
together with the outcome (resolved, or rejected with an error message). -/
def M (E : Type) : Type :=
  PState E → PState E × Except String Unit

/-- A middleware unit, in the shape `dispatch` invokes it: it receives the
context and the computation performed by a call of its bound proceed
callable, and either throws synchronously (`Except.error`) or returns its
awaitable (`Except.ok`). -/
def Hand (C E : Type) : Type :=
  C → M E → Except String (M E)

/-- Read the cursor cell `r`. -/
def getCell {E : Type} (s : PState E) (r : Nat) : Int :=
  s.cells.getD r 0

/-- Write the cursor cell `r`. -/
def setCell {E : Type} (s : PState E) (r : Nat) (v : Int) : PState E :=
  { s with cells := s.cells.set r v }

/-- The message of the re-entrancy guard in `dispatch`. -/
def nextMsg : String := "next() called multiple times"

/-- The body of `dispatch(i)` from koa-compose, with the cursor closure
variable `index` made explicit as cell `r` of the store.  The first `Nat`
argument is structural recursion fuel: `dispatch i` is run with fuel
`mw.length + 1 - i`, so fuel `0` corresponds exactly to `i = mw.length + 1`,
where `middleware[i]` is absent and `i !== middleware.length`, hence after
the guard and the cursor write the promise resolves with no handler call.
For positive fuel the translation is literal: reject when `i <= index`; set
`index = i`; select `fn` (the `i`-th handler, or `next` at the end); resolve
when `fn` is absent; otherwise invoke `fn(context, dispatch.bind(null, i+1))`
inside try/catch. -/
def dispatchAux {C E : Type} (mw : List (Hand C E)) (next : Option (Hand C E))
    (ctx : C) (r : Nat) : Nat → Nat → M E
  | 0, i => fun s =>
      if (i : Int) ≤ getCell s r then (s, Except.error nextMsg)
      else (setCell s r i, Except.ok ())
  | f + 1, i => fun s =>
      if (i : Int) ≤ getCell s r then (s, Except.error nextMsg)
      else
        let s1 := setCell s r i
        let fn : Option (Hand C E) := if i = mw.length then next else mw[i]?
        match fn with
        | none => (s1, Except.ok ())
        | some g =>
            match g ctx (dispatchAux mw next ctx r f (i + 1)) with
            | Except.error e => (s1, Except.error e)
            | Except.ok m => m s1

/-- Invoking the pipeline returned by `compose(middleware)` on a context and
an optional terminal continuation: allocate a fresh cursor cell initialised
to `-1`, then run `dispatch(0)`. -/
def composeRun {C E : Type} (mw : List (Hand C E)) (next : Option (Hand C E))
    (ctx : C) : M E :=
  fun s =>
    dispatchAux mw next ctx s.cells.length (mw.length + 1) 0
      { s with cells := s.cells ++ [-1] }

/-- A bound proceed callable (`dispatch.bind(null, i + 1)`) viewed as a
handler: it ignores both arguments and returns its computation. -/
def handOfM {C E : Type} (m : M E) : Hand C E :=
  fun _ _ => Except.ok m

/-- A composed pipeline used as an ordinary middleware unit: it never throws
synchronously and runs `composeRun` with the received proceed callable as
terminal continuation. -/
def composeHand {C E : Type} (mw : List (Hand C E)) : Hand C E :=
  fun ctx nx => Except.ok (composeRun mw (some (handOfM nx)) ctx)

/-- Syntax of well-behaved async handler bodies: log an event, await the
proceed callable (propagating a rejection, as `await` does), resolve, or
reject. -/
inductive HB (E : Type) where
  | done : HB E
  | log : E → HB E → HB E
  | callNext : HB E → HB E
  | throwErr : String → HB E

/-- Run a handler body given the computation of its proceed callable. -/
def runHB {E : Type} : HB E → M E → M E
  | HB.done, _ => fun s => (s, Except.ok ())
  | HB.log e k, nx => fun s => runHB k nx { s with log := s.log ++ [e] }
  | HB.callNext k, nx => fun s =>
      match nx s with
      | (s1, Except.ok _) => runHB k nx s1
      | (s1, Except.error e) => (s1, Except.error e)
  | HB.throwErr e, _ => fun s => (s, Except.error e)

/-- A handler body as a middleware unit (an async function never throws
synchronously: it returns an awaitable). -/
def handOfHB {C E : Type} (h : HB E) : Hand C E :=
  fun _ nx => Except.ok (runHB h nx)

/-- A handler that logs `b`, awaits its proceed callable exactly once, then
logs `a`. -/
def onceHand {C E : Type} (b a : E) : Hand C E :=
  handOfHB (HB.log b (HB.callNext (HB.log a HB.done)))

/-- The handler `onceHand` on a before/after pair. -/
def onceFn {C E : Type} (p : E × E) : Hand C E :=
  onceHand p.1 p.2

/-- A handler that logs `b` and resolves without ever calling proceed. -/
def stopHand {C E : Type} (b : E) : Hand C E :=
  handOfHB (HB.log b HB.done)

/-- A handler that awaits its proceed callable twice. -/
def twiceHand {C E : Type} : Hand C E :=
  handOfHB (HB.callNext (HB.callNext HB.done))

/-- A handler that throws synchronously. -/
def syncThrowHand {C E : Type} (e : String) : Hand C E :=
  fun _ _ => Except.error e

/-! ### Store lemmas -/

theorem length_setCell {E : Type} (s : PState E) (r : Nat) (v : Int) :
    (setCell s r v).cells.length = s.cells.length := by
  simp [setCell]

theorem getCell_mk {E : Type} (cs : List Int) (lg : List E) (r : Nat) :
    getCell ⟨cs, lg⟩ r = cs.getD r 0 := rfl

theorem getCell_set {E : Type} (cs : List Int) (lg : List E) (r : Nat) (v : Int)
    (h : r < cs.length) : getCell ⟨cs.set r v, lg⟩ r = v := by
  simp [getCell, List.getD, List.getElem?_set_self h]

/-! ### The block of handlers that await proceed exactly once -/

/-- The state reached when dispatch has worked through a block `pre` of
`onceHand` handlers starting at index `i`: all the before events are logged
and, when the block is nonempty, the cursor was last written by the deepest
dispatch of the block (index `i + pre.length - 1`). -/
def preState {E : Type} (pre : List (E × E)) (r i : Nat) (s : PState E) : PState E :=
  { cells := if pre.length = 0 then s.cells
             else s.cells.set r ((i + pre.length - 1 : Nat) : Int),
    log := s.log ++ pre.map Prod.fst }

/-- Resumption through a block `pre` of `onceHand` handlers: a resolved inner
outcome appends the after events in reverse order, a rejected one propagates
unchanged (each `await next()` rethrows). -/
def unwind {E : Type} (pre : List (E × E)) :
    PState E × Except String Unit → PState E × Except String Unit
  | (s, Except.ok _) =>
      ({ s with log := s.log ++ pre.reverse.map Prod.snd }, Except.ok ())
  | (s, Except.error e) => (s, Except.error e)

theorem preState_step {E : Type} (p : E × E) (pr : List (E × E)) (r i : Nat)
    (s : PState E) :
    preState pr r (i + 1) ⟨s.cells.set r (i : Int), s.log ++ [p.1]⟩ =
      preState (p :: pr) r i s := by
  cases pr with
  | nil => simp [preState]
  | cons q qr =>
      simp [preState, List.set_set]
      congr 1
      ring

theorem unwind_step {E : Type} (p : E × E) (pr : List (E × E))
    (o : PState E × Except String Unit) :
    (match unwind pr o with
      | (t, Except.ok _) => (({ t with log := t.log ++ [p.2] } : PState E), Except.ok ())
      | (t, Except.error e) => (t, Except.error e)) =
      unwind (p :: pr) o := by
  rcases o with ⟨t, o⟩
  cases o with
  | ok u => simp [unwind]
  | error e => simp [unwind]

/-- Working through a block of `onceHand` handlers: if the handlers at
indices `i, i+1, ...` are `onceFn` applied to the pairs of `pre`, dispatch at
`i` logs the before events outward-in, continues at `i + pre.length`, and on
the way back appends the after events inward-out (resolving) or propagates a
rejection. -/
theorem dispatchAux_once_block {C E : Type} (mw : List (Hand C E))
    (next : Option (Hand C E)) (ctx : C) (r : Nat) (rest : List (Hand C E))
    (pre : List (E × E)) :
    ∀ (f i : Nat) (s : PState E),
      i + f = mw.length + 1 →
      r < s.cells.length →
      getCell s r < (i : Int) →
      mw.drop i = pre.map onceFn ++ rest →
      dispatchAux mw next ctx r f i s =
        unwind pre (dispatchAux mw next ctx r (f - pre.length) (i + pre.length)
          (preState pre r i s)) := by
  induction pre with
  | nil =>
      intro f i s hf hr hc hd
      have hps : preState ([] : List (E × E)) r i s = s := by
        simp [preState]
      rw [hps]
      simp only [List.length_nil, Nat.sub_zero, Nat.add_zero]
      rcases h : dispatchAux mw next ctx r f i s with ⟨t, o⟩
      cases o with
      | ok u => cases u; simp [unwind]
      | error e => simp [unwind]
  | cons p pr ih =>
      intro f i s hf hr hc hd
      have hcons : mw.drop i = onceFn p :: (pr.map onceFn ++ rest) := by
        simpa using hd
      have hlen : i < mw.length := by
        by_contra hcl
        push_neg at hcl
        rw [List.drop_eq_nil_of_le hcl] at hcons
        exact List.noConfusion hcons
      have hget : mw[i]? = some (onceFn p) := by
        have h0 := List.getElem?_drop mw i 0
        rw [hcons] at h0
        simpa using h0.symm
      have hdrop1 : mw.drop (i + 1) = pr.map onceFn ++ rest := by
        have hdd : mw.drop (i + 1) = (mw.drop i).drop 1 := by
          rw [List.drop_drop]
        rw [hdd, hcons]
        rfl
      obtain ⟨f1, rfl⟩ : ∃ f1, f = f1 + 1 := ⟨f - 1, by omega⟩
      have hguard : ¬ ((i : Int) ≤ getCell s r) := not_le.mpr hc
      have hne : ¬ (i = mw.length) := by omega
      -- one unfolding of dispatch at index i
      have lhs1 : dispatchAux mw next ctx r (f1 + 1) i s =
          runHB (HB.log p.1 (HB.callNext (HB.log p.2 HB.done)))
            (dispatchAux mw next ctx r f1 (i + 1)) (setCell s r (i : Int)) := by
        simp only [dispatchAux, if_neg hguard, if_neg hne, hget, onceFn, onceHand,
          handOfHB]
      rw [lhs1]
      -- run the handler body: log the before event, await proceed
      have lhs2 : runHB (HB.log p.1 (HB.callNext (HB.log p.2 HB.done)))
            (dispatchAux mw next ctx r f1 (i + 1)) (setCell s r (i : Int)) =
          (match dispatchAux mw next ctx r f1 (i + 1)
              ⟨s.cells.set r (i : Int), s.log ++ [p.1]⟩ with
            | (t, Except.ok _) =>
                (({ t with log := t.log ++ [p.2] } : PState E), Except.ok ())
            | (t, Except.error e) => (t, Except.error e)) := by
        simp only [runHB, setCell]
      rw [lhs2]
      -- the recursive block for the tail
      have hrec := ih f1 (i + 1) ⟨s.cells.set r (i : Int), s.log ++ [p.1]⟩
        (by omega)
        (by simpa using hr)
        (by
          rw [getCell_set _ _ _ _ hr]
          exact_mod_cast Nat.lt_succ_self i)
        hdrop1
      rw [hrec, preState_step p pr r i s]
      have hfuel : f1 - pr.length = f1 + 1 - (p :: pr).length := by
        simp
      have hidx : i + 1 + pr.length = i + (p :: pr).length := by
        simp
        omega
      rw [hfuel, hidx] at *
      exact unwind_step p pr _

/-- Dispatching past a tail made only of `onceHand` handlers with no terminal
continuation: all before events are logged, the index reaches the end of the
sequence where the invocation resolves, and the after events are appended in
reverse order. -/
theorem dispatchAux_once_end_none {C E : Type} (mw : List (Hand C E)) (ctx : C)
    (r : Nat) (tl : List (E × E)) (f i : Nat) (s : PState E)
    (hf : i + f = mw.length + 1) (hi : i ≤ mw.length) (hr : r < s.cells.length)
    (hc : getCell s r < (i : Int)) (hd : mw.drop i = tl.map onceFn) :
    dispatchAux mw none ctx r f i s =
      (⟨s.cells.set r (mw.length : Int),
        s.log ++ tl.map Prod.fst ++ tl.reverse.map Prod.snd⟩, Except.ok ()) := by
  have hlen : i + tl.length = mw.length := by
    have hld := congrArg List.length hd
    simp [List.length_drop] at hld
    omega
  have hblock := dispatchAux_once_block mw none ctx r [] tl f i s hf hr hc
    (by simpa using hd)
  rw [hblock]
  have hfuel : f - tl.length = 1 := by omega
  rw [hfuel, hlen]
  -- evaluate dispatch at index mw.length with fuel 1: the guard passes, the
  -- cursor is written, `fn` is the absent terminal continuation, so resolve
  by_cases htl : tl.length = 0
  · have htln : tl = [] := List.length_eq_zero.mp htl
    subst htln
    simp only [preState, if_pos rfl, List.map_nil, List.append_nil, List.reverse_nil]
    have hg : ¬ ((mw.length : Int) ≤ getCell ⟨s.cells, s.log⟩ r) := by
      have : i = mw.length := by omega
      subst this
      exact not_le.mpr hc
    simp [dispatchAux, hg, unwind, setCell]
  · have hg : ¬ ((mw.length : Int) ≤
        getCell ⟨s.cells.set r ((i + tl.length - 1 : Nat) : Int),
          s.log ++ tl.map Prod.fst⟩ r) := by
      rw [getCell_set _ _ _ _ hr]
      rw [not_le]
      exact_mod_cast (by omega : i + tl.length - 1 < mw.length)
    simp only [preState, if_neg htl]
    simp [dispatchAux, hg, unwind, setCell, List.set_set, List.append_assoc]

/-- Dispatching past a tail made only of `onceHand` handlers onto a terminal
continuation of the bound-proceed shape: the before events are logged, the
continuation computation runs from the end-of-sequence cursor, and the after
events unwind around its outcome. -/
theorem dispatchAux_once_end_handOfM {C E : Type} (mw : List (Hand C E))
    (nx : M E) (ctx : C) (r : Nat) (tl : List (E × E)) (f i : Nat) (s : PState E)
    (hf : i + f = mw.length + 1) (hi : i ≤ mw.length) (hr : r < s.cells.length)
    (hc : getCell s r < (i : Int)) (hd : mw.drop i = tl.map onceFn) :
    dispatchAux mw (some (handOfM nx)) ctx r f i s =
      unwind tl (nx ⟨s.cells.set r (mw.length : Int),
        s.log ++ tl.map Prod.fst⟩) := by
  have hlen : i + tl.length = mw.length := by
    have hld := congrArg List.length hd
    simp [List.length_drop] at hld
    omega
  have hblock := dispatchAux_once_block mw (some (handOfM nx)) ctx r [] tl f i s
    hf hr hc (by simpa using hd)
  rw [hblock]
  have hfuel : f - tl.length = 1 := by omega
  rw [hfuel, hlen]
  by_cases htl : tl.length = 0
  · have htln : tl = [] := List.length_eq_zero.mp htl
    subst htln
    simp only [preState, if_pos rfl, List.map_nil, List.append_nil]
    have hg : ¬ ((mw.length : Int) ≤ getCell ⟨s.cells, s.log⟩ r) := by
      have : i = mw.length := by omega
      subst this
      exact not_le.mpr hc
    simp [dispatchAux, hg, handOfM, setCell]
  · have hg : ¬ ((mw.length : Int) ≤
        getCell ⟨s.cells.set r ((i + tl.length - 1 : Nat) : Int),
          s.log ++ tl.map Prod.fst⟩ r) := by
      rw [getCell_set _ _ _ _ hr]
      rw [not_le]
      exact_mod_cast (by omega : i + tl.length - 1 < mw.length)
    simp only [preState, if_neg htl]
    simp [dispatchAux, hg, handOfM, setCell, List.set_set]

/-! ### Claim theorems about the composed pipeline -/

/-- C1: for every sequence of handlers that each log a before event, await
their proceed callable exactly once, and log an after event, invoking the
composed pipeline on any context resolves successfully, calls the handlers in
sequence order with strictly nested before/after semantics — the shared log
reads all before events in sequence order followed by all after events in
reverse sequence order (for three handlers: before1, before2, before3,
after3, after2, after1) — and each handler runs at most once (its two events
appear exactly once); the final cursor equals the sequence length. -/
theorem compose_once_nesting {C E : Type} (hs : List (E × E)) (ctx : C) :
    composeRun (hs.map onceFn) none ctx ⟨[], []⟩ =
      (⟨[(hs.length : Int)], hs.map Prod.fst ++ hs.reverse.map Prod.snd⟩,
        Except.ok ()) := by
  unfold composeRun
  have hend := dispatchAux_once_end_none (hs.map onceFn) ctx 0 hs
    ((hs.map onceFn).length + 1) 0 ⟨[] ++ [-1], []⟩
    (by omega) (by omega) (by simp) (by simp [getCell]) (by simp)
  simp only [List.nil_append, List.length_nil] at hend ⊢
  rw [hend]
  simp [List.set]

/-- C5: if the handler at index `k` logs an event and resolves without ever
invoking its proceed callable, then no handler at an index greater than `k`
is invoked during the pipeline invocation — the outcome and the log are
independent of the arbitrary handlers `rest` placed after it, the cursor
never moves past `k` — and the invocation resolves successfully. -/
theorem compose_short_circuit {C E : Type} (pre : List (E × E)) (b : E)
    (rest : List (Hand C E)) (ctx : C) :
    composeRun (pre.map onceFn ++ stopHand b :: rest) none ctx ⟨[], []⟩ =
      (⟨[(pre.length : Int)],
        pre.map Prod.fst ++ b :: pre.reverse.map Prod.snd⟩, Except.ok ()) := by
  unfold composeRun
  set mw : List (Hand C E) := pre.map onceFn ++ stopHand b :: rest with hmw
  have hN : mw.length = pre.length + 1 + rest.length := by
    simp [hmw]
    omega
  have hblock := dispatchAux_once_block mw none ctx 0 (stopHand b :: rest) pre
    (mw.length + 1) 0 ⟨[] ++ [-1], []⟩
    (by omega) (by simp) (by simp [getCell]) (by simp [hmw])
  simp only [List.nil_append, List.length_nil] at hblock ⊢
  rw [hblock]
  -- dispatch at index `pre.length` finds the stopping handler
  have hgetk : mw[pre.length]? = some (stopHand b) := by
    have hlm : pre.length = (List.map (onceFn (C := C)) pre).length := by simp
    rw [hmw, hlm, List.getElem?_append_right (le_refl _)]
    simp
  have hkne : ¬ (pre.length = mw.length) := by omega
  obtain ⟨f2, hf2⟩ : ∃ f2, mw.length + 1 - pre.length = f2 + 1 :=
    ⟨mw.length - pre.length, by omega⟩
  rw [hf2]
  by_cases htl : pre.length = 0
  · have hpn : pre = [] := List.length_eq_zero.mp htl
    subst hpn
    have hget0 : mw[0]? = some (stopHand b) := by simpa using hgetk
    have hkne0 : ¬ (0 = mw.length) := by omega
    simp [preState, dispatchAux, getCell, hget0, hkne0, stopHand, handOfHB,
      runHB, unwind, setCell, List.set]
  · have hcond : ¬ ((pre.length : Int) ≤ ((pre.length - 1 : Nat) : Int)) := by
      rw [not_le]
      exact_mod_cast (by omega : pre.length - 1 < pre.length)
    simp only [preState, if_neg htl, Nat.zero_add]
    simp [dispatchAux, getCell, hcond, hgetk, hkne, stopHand, handOfHB, runHB,
      unwind, setCell, List.set_set, List.set]

/-- One dispatch step at an index holding a handler-body middleware unit. -/
theorem dispatchAux_handler_step {C E : Type} (mw : List (Hand C E))
    (next : Option (Hand C E)) (ctx : C) (r : Nat) (h : HB E) (f i : Nat)
    (s : PState E) (hg : getCell s r < (i : Int))
    (hget : mw[i]? = some (handOfHB h)) (hne : ¬ (i = mw.length)) :
    dispatchAux mw next ctx r (f + 1) i s =
      runHB h (dispatchAux mw next ctx r f (i + 1)) (setCell s r (i : Int)) := by
  simp only [dispatchAux, if_neg (not_le.mpr hg), if_neg hne, hget, handOfHB]

/-- The re-entrancy guard: dispatching any index `i` while the cursor already
holds a value at least `i` rejects at once with the guard message, leaving
the state untouched, whatever the handlers, the continuation, the fuel and
the context are. -/
theorem dispatchAux_guard {C E : Type} (mw : List (Hand C E))
    (next : Option (Hand C E)) (ctx : C) (f i j : Nat) (cs : List Int)
    (L : List E) :
    dispatchAux mw next ctx 0 f i ⟨((i + j : Nat) : Int) :: cs, L⟩ =
      (⟨((i + j : Nat) : Int) :: cs, L⟩, Except.error nextMsg) := by
  have hle : (i : Int) ≤ ((i + j : Nat) : Int) := by
    exact_mod_cast Nat.le_add_right i j
  cases f with
  | zero => simp [dispatchAux, getCell, hle]
  | succ f => simp [dispatchAux, getCell, hle]

/-- The concrete value of the block state for a singleton store. -/
theorem preState_single {E : Type} (pre : List (E × E)) :
    preState pre 0 0 (⟨[-1], []⟩ : PState E) =
      ⟨[if pre.length = 0 then (-1 : Int) else ((pre.length - 1 : Nat) : Int)],
        pre.map Prod.fst⟩ := by
  by_cases htl : pre.length = 0
  · simp [preState, htl]
  · simp [preState, htl, List.set]

theorem preState_single_cell {E : Type} (pre : List (E × E)) :
    getCell (preState pre 0 0 (⟨[-1], []⟩ : PState E)) 0 < (pre.length : Int) := by
  rw [preState_single]
  by_cases htl : pre.length = 0
  · simp [getCell, htl]
  · simp only [getCell, if_neg htl, List.getD_cons_zero]
    exact_mod_cast (by omega : pre.length - 1 < pre.length)

/-- C2: for every pipeline in which some handler awaits its proceed callable
twice (here: after a block of well-behaved handlers and before a tail of
well-behaved handlers, at any index and on any context), the invocation
rejects with the error message "next() called multiple times"; moreover
dispatching any target index that is less than or equal to the value already
held by the cursor rejects immediately with that same message, regardless of
the handler list, the continuation, and the context. -/
theorem compose_next_multiple_times {C E : Type} :
    (∀ (pre post : List (E × E)) (ctx : C),
      (composeRun (pre.map onceFn ++ twiceHand :: post.map onceFn) none ctx
        ⟨[], []⟩).2 = Except.error nextMsg) ∧
    (∀ (mw : List (Hand C E)) (next : Option (Hand C E)) (ctx : C)
        (f i j : Nat) (cs : List Int) (L : List E),
      dispatchAux mw next ctx 0 f i ⟨((i + j : Nat) : Int) :: cs, L⟩ =
        (⟨((i + j : Nat) : Int) :: cs, L⟩, Except.error nextMsg)) := by
  constructor
  · intro pre post ctx
    unfold composeRun
    set mw : List (Hand C E) := pre.map onceFn ++ twiceHand :: post.map onceFn
      with hmw
    have hN : mw.length = pre.length + 1 + post.length := by
      simp [hmw]
      omega
    have hblock := dispatchAux_once_block mw none ctx 0
      (twiceHand :: post.map onceFn) pre (mw.length + 1) 0 ⟨[] ++ [-1], []⟩
      (by omega) (by simp) (by simp [getCell]) (by simp [hmw])
    simp only [List.nil_append, List.length_nil, Nat.zero_add] at hblock ⊢
    rw [hblock]
    have hgetk : mw[pre.length]? = some (twiceHand (C := C) (E := E)) := by
      have hlm : pre.length = (List.map (onceFn (C := C)) pre).length := by simp
      rw [hmw, hlm, List.getElem?_append_right (le_refl _)]
      simp
    have hkne : ¬ (pre.length = mw.length) := by omega
    obtain ⟨f2, hf2⟩ : ∃ f2, mw.length + 1 - pre.length = f2 + 1 :=
      ⟨mw.length - pre.length, by omega⟩
    rw [hf2]
    rw [show twiceHand (C := C) (E := E) =
      handOfHB (HB.callNext (HB.callNext HB.done)) from rfl] at hgetk
    rw [dispatchAux_handler_step mw none ctx 0 (HB.callNext (HB.callNext HB.done))
      f2 pre.length _ (preState_single_cell pre) hgetk hkne]
    -- the first call of proceed dispatches the entire well-behaved tail
    rw [preState_single]
    have hs1 : setCell (⟨[if pre.length = 0 then (-1 : Int)
          else ((pre.length - 1 : Nat) : Int)], pre.map Prod.fst⟩ : PState E) 0
          ((pre.length : Nat) : Int) =
        ⟨[(pre.length : Int)], pre.map Prod.fst⟩ := by
      by_cases htl : pre.length = 0
      · simp [setCell, List.set]
      · simp [setCell, List.set]
    rw [hs1]
    have hdp : mw.drop (pre.length + 1) = post.map onceFn := by
      rw [hmw]
      rw [show pre.length + 1 = (List.map (onceFn (C := C)) pre).length + 1 by simp]
      rw [List.drop_append]
      simp
    have hfirst := dispatchAux_once_end_none mw ctx 0 post f2 (pre.length + 1)
      ⟨[(pre.length : Int)], pre.map Prod.fst⟩
      (by omega) (by omega) (by simp)
      (by
        simp only [getCell, List.getD_cons_zero]
        exact_mod_cast Nat.lt_succ_self pre.length)
      hdp
    simp only [runHB]
    rw [hfirst]
    -- the second call of proceed now hits the guard
    have hsecond := dispatchAux_guard mw none ctx f2 (pre.length + 1) post.length
      ([] : List Int)
      (pre.map Prod.fst ++ (post.map Prod.fst ++ post.reverse.map Prod.snd))
    have hcast : (((pre.length + 1) + post.length : Nat) : Int) = (mw.length : Int) := by
      exact_mod_cast (by omega : (pre.length + 1) + post.length = mw.length)
    rw [hcast] at hsecond
    simp only [List.set, List.append_assoc] at hsecond ⊢
    rw [hsecond]
    rcases hu : unwind pre (⟨[(mw.length : Int)],
        pre.map Prod.fst ++ (post.map Prod.fst ++ post.reverse.map Prod.snd)⟩,
        Except.error nextMsg) with ⟨t, o⟩
    simp [unwind] at hu
    simp [hu.2]
  · intro mw next ctx f i j cs L
    exact dispatchAux_guard mw next ctx f i j cs L

/-- C9: invoking the composed pipeline never throws synchronously — used as a
handler unit it always returns an awaitable (`Except.ok`), for every
middleware list, context and proceed computation — and a handler that throws
synchronously has its exception caught by dispatch and surfaced as a
rejection of the pipeline invocation. -/
theorem compose_total_promise {C E : Type} :
    (∀ (mw : List (Hand C E)) (ctx : C) (nx : M E),
      ∃ m : M E, composeHand mw ctx nx = Except.ok m) ∧
    (∀ (pre : List (E × E)) (e : String) (ctx : C),
      (composeRun (pre.map onceFn ++ [syncThrowHand e]) none ctx ⟨[], []⟩).2 =
        Except.error e) := by
  constructor
  · intro mw ctx nx
    exact ⟨_, rfl⟩
  · intro pre e ctx
    unfold composeRun
    set mw : List (Hand C E) := pre.map onceFn ++ [syncThrowHand e] with hmw
    have hN : mw.length = pre.length + 1 := by
      simp [hmw]
    have hblock := dispatchAux_once_block mw none ctx 0 [syncThrowHand e] pre
      (mw.length + 1) 0 ⟨[] ++ [-1], []⟩
      (by omega) (by simp) (by simp [getCell]) (by simp [hmw])
    simp only [List.nil_append, List.length_nil, Nat.zero_add] at hblock ⊢
    rw [hblock]
    have hgetk : mw[pre.length]? = some (syncThrowHand (C := C) (E := E) e) := by
      have hlm : pre.length = (List.map (onceFn (C := C)) pre).length := by simp
      rw [hmw, hlm, List.getElem?_append_right (le_refl _)]
      simp
    have hkne : ¬ (pre.length = mw.length) := by omega
    obtain ⟨f2, hf2⟩ : ∃ f2, mw.length + 1 - pre.length = f2 + 1 :=
      ⟨mw.length - pre.length, by omega⟩
    rw [hf2]
    have hstep : dispatchAux mw none ctx 0 (f2 + 1) pre.length
        (preState pre 0 0 ⟨[-1], []⟩) =
        (setCell (preState pre 0 0 ⟨[-1], []⟩) 0 (pre.length : Int),
          Except.error e) := by
      simp only [dispatchAux, if_neg (not_le.mpr (preState_single_cell pre)),
        if_neg hkne, hgetk, syncThrowHand]
    rw [hstep]
    simp [unwind]

/-! ### Well-behaved handler behaviors and nested composition -/

/-- A handler that logs `b` and rejects with `m` without calling proceed. -/
def throwHand {C E : Type} (b : E) (m : String) : Hand C E :=
  handOfHB (HB.log b (HB.throwErr m))

/-- The behaviors of a well-behaved middleware unit (one that awaits its
proceed callable at most once): log an event, await proceed, and log a
second event on resumption; short-circuit by resolving without calling
proceed; or fail by rejecting without calling proceed. -/
inductive WB (E : Type) where
  | once : E → E → WB E
  | stop : E → WB E
  | throwB : E → String → WB E

/-- Interpretation of a behavior as a middleware unit. -/
def wbHand {C E : Type} : WB E → Hand C E
  | WB.once b a => onceHand b a
  | WB.stop b => stopHand b
  | WB.throwB b m => throwHand b m

/-- The joint effect of dispatching a block of well-behaved handlers
starting at index `i` with cursor cell `r`: each unit writes the cursor and
logs its first event, then either hands control inward — through the rest of
the block and finally to `inner` — resuming with the second event on
resolution and propagating rejections, or terminates the block by resolving
or rejecting on the spot. -/
def wbBlock {E : Type} : List (WB E) → M E → Nat → Nat → PState E →
    PState E × Except String Unit
  | [], inner, _, _, s => inner s
  | WB.once b a :: tl, inner, r, i, s =>
      match wbBlock tl inner r (i + 1) ⟨s.cells.set r (i : Int), s.log ++ [b]⟩ with
      | (t, Except.ok _) => ({ t with log := t.log ++ [a] }, Except.ok ())
      | (t, Except.error e) => (t, Except.error e)
  | WB.stop b :: _, _, r, i, s =>
      (⟨s.cells.set r (i : Int), s.log ++ [b]⟩, Except.ok ())
  | WB.throwB b m :: _, _, r, i, s =>
      (⟨s.cells.set r (i : Int), s.log ++ [b]⟩, Except.error m)

theorem getCell_set_ne {E : Type} (cs : List Int) (lg lg2 : List E) (p q : Nat)
    (v : Int) (h : q ≠ p) : getCell ⟨cs.set q v, lg⟩ p = getCell ⟨cs, lg2⟩ p := by
  simp [getCell, List.getD, List.getElem?_set_ne h]

theorem getCell_append_last {E : Type} (cs : List Int) (lg : List E) (v : Int) :
    getCell ⟨cs ++ [v], lg⟩ cs.length = v := by
  simp [getCell, List.getD, List.getElem?_append_right (le_refl cs.length)]

theorem getD_set_ne (cs : List Int) (q p : Nat) (v d : Int) (h : q ≠ p) :
    (cs.set q v).getD p d = cs.getD p d := by
  simp [List.getD, List.getElem?_set_ne h]

/-- Dispatch at the end of the sequence with no terminal continuation: the
guard passes, the cursor is written, `fn` is absent, the promise resolves. -/
theorem dispatchAux_end_resolve {C E : Type} (mw : List (Hand C E)) (ctx : C)
    (r : Nat) (s : PState E) (hc : getCell s r < (mw.length : Int)) :
    dispatchAux mw none ctx r 1 mw.length s =
      (setCell s r (mw.length : Int), Except.ok ()) := by
  simp [dispatchAux, not_le.mpr hc]

/-- Dispatch at the end of the sequence onto a bound-proceed terminal
continuation: the continuation computation runs from the written cursor. -/
theorem dispatchAux_end_continue {C E : Type} (mw : List (Hand C E)) (nx : M E)
    (ctx : C) (r : Nat) (s : PState E) (hc : getCell s r < (mw.length : Int)) :
    dispatchAux mw (some (handOfM nx)) ctx r 1 mw.length s =
      nx (setCell s r (mw.length : Int)) := by
  simp [dispatchAux, not_le.mpr hc, handOfM]

/-- Dispatching a block of well-behaved handlers equals its joint effect
`wbBlock`, with dispatch past the block as the inner computation. -/
theorem dispatchAux_wb_block {C E : Type} (mw : List (Hand C E))
    (next : Option (Hand C E)) (ctx : C) (r : Nat) (rest : List (Hand C E))
    (X : List (WB E)) :
    ∀ (f i : Nat) (s : PState E),
      i + f = mw.length + 1 →
      r < s.cells.length →
      getCell s r < (i : Int) →
      mw.drop i = X.map wbHand ++ rest →
      dispatchAux mw next ctx r f i s =
        wbBlock X (dispatchAux mw next ctx r (f - X.length) (i + X.length))
          r i s := by
  induction X with
  | nil =>
      intro f i s hf hr hc hd
      simp [wbBlock]
  | cons x tl ih =>
      intro f i s hf hr hc hd
      have hcons : mw.drop i = wbHand x :: (tl.map wbHand ++ rest) := by
        simpa using hd
      have hlen : i < mw.length := by
        by_contra hcl
        push_neg at hcl
        rw [List.drop_eq_nil_of_le hcl] at hcons
        exact List.noConfusion hcons
      have hget : mw[i]? = some (wbHand x) := by
        have h0 := List.getElem?_drop mw i 0
        rw [hcons] at h0
        simpa using h0.symm
      have hdrop1 : mw.drop (i + 1) = tl.map wbHand ++ rest := by
        have hdd : mw.drop (i + 1) = (mw.drop i).drop 1 := by
          rw [List.drop_drop]
        rw [hdd, hcons]
        rfl
      obtain ⟨f1, rfl⟩ : ∃ f1, f = f1 + 1 := ⟨f - 1, by omega⟩
      have hguard : ¬ ((i : Int) ≤ getCell s r) := not_le.mpr hc
      have hne : ¬ (i = mw.length) := by omega
      cases x with
      | once b a =>
          have lhs1 : dispatchAux mw next ctx r (f1 + 1) i s =
              runHB (HB.log b (HB.callNext (HB.log a HB.done)))
                (dispatchAux mw next ctx r f1 (i + 1)) (setCell s r (i : Int)) := by
            simp only [dispatchAux, if_neg hguard, if_neg hne, hget, wbHand,
              onceHand, handOfHB]
          rw [lhs1]
          have lhs2 : runHB (HB.log b (HB.callNext (HB.log a HB.done)))
                (dispatchAux mw next ctx r f1 (i + 1)) (setCell s r (i : Int)) =
              (match dispatchAux mw next ctx r f1 (i + 1)
                  ⟨s.cells.set r (i : Int), s.log ++ [b]⟩ with
                | (t, Except.ok _) =>
                    (({ t with log := t.log ++ [a] } : PState E), Except.ok ())
                | (t, Except.error e) => (t, Except.error e)) := by
            simp only [runHB, setCell]
          rw [lhs2]
          have hrec := ih f1 (i + 1) ⟨s.cells.set r (i : Int), s.log ++ [b]⟩
            (by omega) (by simpa using hr)
            (by
              rw [getCell_set _ _ _ _ hr]
              exact_mod_cast Nat.lt_succ_self i)
            hdrop1
          rw [hrec]
          have hfe : f1 - tl.length = f1 + 1 - (tl.length + 1) := by omega
          have hie : (i + 1) + tl.length = i + (tl.length + 1) := by omega
          rw [hfe, hie]
          simp only [wbBlock, List.length_cons]
      | stop b =>
          simp only [dispatchAux, if_neg hguard, if_neg hne, hget, wbHand,
            stopHand, handOfHB, runHB, wbBlock, setCell]
      | throwB b m =>
          simp only [dispatchAux, if_neg hguard, if_neg hne, hget, wbHand,
            throwHand, handOfHB, runHB, wbBlock, setCell]

/-- The joint effect of a well-behaved block reads the store only through
its inner computation: two runs of the same block, over different cursor
cells, indices and stores but equal logs, produce equal logs and equal
outcomes whenever their inner computations agree in that sense on the states
the blocks can hand them (equal logs, the store invariants, the cursor bound
established by the deepest write). -/
theorem wbBlock_congr {E : Type} (X : List (WB E)) :
    ∀ (inner1 inner2 : M E) (P1 P2 : List Int → Prop) (r1 r2 i1 i2 : Nat)
      (s1 s2 : PState E),
      s1.log = s2.log →
      P1 s1.cells → P2 s2.cells →
      getCell s1 r1 < (i1 : Int) → getCell s2 r2 < (i2 : Int) →
      r1 < s1.cells.length → r2 < s2.cells.length →
      (∀ cs v, P1 cs → P1 (cs.set r1 v)) →
      (∀ cs v, P2 cs → P2 (cs.set r2 v)) →
      (∀ t1 t2 : PState E, t1.log = t2.log →
        P1 t1.cells → P2 t2.cells →
        getCell t1 r1 < ((i1 + X.length : Nat) : Int) →
        getCell t2 r2 < ((i2 + X.length : Nat) : Int) →
        r1 < t1.cells.length → r2 < t2.cells.length →
        (inner1 t1).1.log = (inner2 t2).1.log ∧
          (inner1 t1).2 = (inner2 t2).2) →
      (wbBlock X inner1 r1 i1 s1).1.log = (wbBlock X inner2 r2 i2 s2).1.log ∧
        (wbBlock X inner1 r1 i1 s1).2 = (wbBlock X inner2 r2 i2 s2).2 := by
  induction X with
  | nil =>
      intro inner1 inner2 P1 P2 r1 r2 i1 i2 s1 s2 hlog hP1 hP2 hc1 hc2 hr1 hr2
        hS1 hS2 hin
      simpa [wbBlock] using hin s1 s2 hlog hP1 hP2 (by simpa using hc1)
        (by simpa using hc2) hr1 hr2
  | cons x tl ih =>
      intro inner1 inner2 P1 P2 r1 r2 i1 i2 s1 s2 hlog hP1 hP2 hc1 hc2 hr1 hr2
        hS1 hS2 hin
      cases x with
      | once b a =>
          have hin' : ∀ t1 t2 : PState E, t1.log = t2.log →
              P1 t1.cells → P2 t2.cells →
              getCell t1 r1 < (((i1 + 1) + tl.length : Nat) : Int) →
              getCell t2 r2 < (((i2 + 1) + tl.length : Nat) : Int) →
              r1 < t1.cells.length → r2 < t2.cells.length →
              (inner1 t1).1.log = (inner2 t2).1.log ∧
                (inner1 t1).2 = (inner2 t2).2 := by
            intro t1 t2 a1 a2 a3 a4 a5 a6 a7
            have he1 : (i1 + 1) + tl.length = i1 + (tl.length + 1) := by omega
            have he2 : (i2 + 1) + tl.length = i2 + (tl.length + 1) := by omega
            exact hin t1 t2 a1 a2 a3 (he1 ▸ a4) (he2 ▸ a5) a6 a7
          have hrec := ih inner1 inner2 P1 P2 r1 r2 (i1 + 1) (i2 + 1)
            ⟨s1.cells.set r1 (i1 : Int), s1.log ++ [b]⟩
            ⟨s2.cells.set r2 (i2 : Int), s2.log ++ [b]⟩
            (by rw [hlog]) (hS1 _ _ hP1) (hS2 _ _ hP2)
            (by
              rw [getCell_set _ _ _ _ hr1]
              exact_mod_cast Nat.lt_succ_self i1)
            (by
              rw [getCell_set _ _ _ _ hr2]
              exact_mod_cast Nat.lt_succ_self i2)
            (by simpa using hr1) (by simpa using hr2) hS1 hS2 hin'
          simp only [wbBlock]
          rcases h1 : wbBlock tl inner1 r1 (i1 + 1)
            ⟨s1.cells.set r1 (i1 : Int), s1.log ++ [b]⟩ with ⟨t1, o1⟩
          rcases h2 : wbBlock tl inner2 r2 (i2 + 1)
            ⟨s2.cells.set r2 (i2 : Int), s2.log ++ [b]⟩ with ⟨t2, o2⟩
          rw [h1, h2] at hrec
          obtain ⟨hlg, ho⟩ := hrec
          simp only at hlg ho
          cases o1 with
          | ok u =>
              cases o2 with
              | ok u2 => simp [hlg]
              | error e => exact absurd ho (by simp)
          | error e =>
              cases o2 with
              | ok u2 => exact absurd ho (by simp)
              | error e2 =>
                  simp [hlg, ho]
      | stop b => simp [wbBlock, hlog]
      | throwB b m => simp [wbBlock, hlog]

/-- C4: a composed pipeline nested inside another pipeline as a single
handler unit behaves identically to the flattened pipeline obtained by
inlining its handlers at that position: for all blocks `A1`, `B`, `A2` of
well-behaved handlers — each may resolve after awaiting proceed once,
short-circuit, or reject, at any position — the invocation on any context
produces the same shared log (the same handler invocation order) and the
same resolution/rejection outcome as the single flattened sequence
`A1 ++ B ++ A2`. -/
theorem compose_nested_flatten {C E : Type} (A1 B A2 : List (WB E)) (ctx : C) :
    ((composeRun (A1.map wbHand ++ composeHand (B.map wbHand) :: A2.map wbHand)
        none ctx ⟨[], []⟩).1.log =
      (composeRun ((A1 ++ B ++ A2).map wbHand) none ctx ⟨[], []⟩).1.log) ∧
    ((composeRun (A1.map wbHand ++ composeHand (B.map wbHand) :: A2.map wbHand)
        none ctx ⟨[], []⟩).2 =
      (composeRun ((A1 ++ B ++ A2).map wbHand) none ctx ⟨[], []⟩).2) := by
  set mwN : List (Hand C E) :=
    A1.map wbHand ++ composeHand (B.map wbHand) :: A2.map wbHand with hmwN
  set mwF : List (Hand C E) := (A1 ++ B ++ A2).map wbHand with hmwF
  have hN1 : mwN.length = A1.length + 1 + A2.length := by
    simp [hmwN]
    omega
  have hNF : mwF.length = A1.length + (B.length + A2.length) := by
    simp [hmwF]
  have hgetkN : mwN[A1.length]? = some (composeHand (B.map (wbHand (C := C)))) := by
    have hlm : A1.length = (List.map (wbHand (C := C)) A1).length := by simp
    rw [hmwN, hlm, List.getElem?_append_right (le_refl _)]
    simp
  have hdropN : mwN.drop (A1.length + 1) = A2.map wbHand := by
    rw [hmwN]
    rw [show A1.length + 1 = (List.map (wbHand (C := C)) A1).length + 1 by simp]
    rw [List.drop_append]
    simp
  have hdropF1 : mwF.drop A1.length = B.map wbHand ++ A2.map wbHand := by
    have heqF : mwF = List.map (wbHand (C := C)) A1 ++
        (B.map wbHand ++ A2.map wbHand) := by
      simp [hmwF]
    rw [heqF, show A1.length = (List.map (wbHand (C := C)) A1).length by simp]
    simp [List.drop_append]
  have hdropF2 : mwF.drop (A1.length + B.length) = A2.map wbHand := by
    have h1 : (mwF.drop A1.length).drop B.length =
        mwF.drop (A1.length + B.length) := by
      rw [List.drop_drop]
    rw [← h1, hdropF1]
    rw [show B.length = (List.map (wbHand (C := C)) B).length by simp]
    simp [List.drop_append]
  -- agreement of the two end-of-tail dispatches: both resolve, writing only
  -- their cursor
  have hagree3 : ∀ v1 v2 : PState E, v1.log = v2.log →
      v1.cells.length = 2 → v2.cells.length = 1 →
      getCell v1 0 < (((A1.length + 1) + A2.length : Nat) : Int) →
      getCell v2 0 < (((A1.length + B.length) + A2.length : Nat) : Int) →
      0 < v1.cells.length → 0 < v2.cells.length →
      ((dispatchAux mwN none ctx 0 1 mwN.length v1).1.log =
        (dispatchAux mwF none ctx 0 1 mwF.length v2).1.log ∧
       (dispatchAux mwN none ctx 0 1 mwN.length v1).2 =
        (dispatchAux mwF none ctx 0 1 mwF.length v2).2) := by
    intro v1 v2 hlog hl1 hl2 hb1 hb2 h01 h02
    have hb1x : getCell v1 0 < (mwN.length : Int) := by
      have he : (A1.length + 1) + A2.length = mwN.length := by omega
      rw [← he]
      exact hb1
    have hb2x : getCell v2 0 < (mwF.length : Int) := by
      have he : (A1.length + B.length) + A2.length = mwF.length := by omega
      rw [← he]
      exact hb2
    rw [dispatchAux_end_resolve mwN ctx 0 v1 hb1x,
      dispatchAux_end_resolve mwF ctx 0 v2 hb2x]
    exact ⟨hlog, rfl⟩
  -- agreement of the two dispatches of the block `B`: inside the nested unit
  -- with its own cursor cell against inside the flattened sequence
  have hagree2 : ∀ u1 u2 : PState E, u1.log = u2.log →
      (u1.cells.length = 2 ∧ u1.cells.getD 0 0 = (A1.length : Int)) →
      u2.cells.length = 1 →
      getCell u1 1 < ((0 + B.length : Nat) : Int) →
      getCell u2 0 < ((A1.length + B.length : Nat) : Int) →
      1 < u1.cells.length → 0 < u2.cells.length →
      ((dispatchAux (B.map wbHand)
          (some (handOfM (dispatchAux mwN none ctx 0 (A2.length + 1)
            (A1.length + 1)))) ctx 1 1 (B.map (wbHand (C := C))).length u1).1.log =
        (dispatchAux mwF none ctx 0 (A2.length + 1)
          (A1.length + B.length) u2).1.log ∧
       (dispatchAux (B.map wbHand)
          (some (handOfM (dispatchAux mwN none ctx 0 (A2.length + 1)
            (A1.length + 1)))) ctx 1 1 (B.map (wbHand (C := C))).length u1).2 =
        (dispatchAux mwF none ctx 0 (A2.length + 1)
          (A1.length + B.length) u2).2) := by
    intro u1 u2 hlog hP1 hP2 hbd1 hbd2 hr1 hr2
    obtain ⟨hlen1, hcell0⟩ := hP1
    have hbd1x : getCell u1 1 < (((B.map (wbHand (C := C))).length : Nat) : Int) := by
      simpa using hbd1
    rw [dispatchAux_end_continue (B.map wbHand) _ ctx 1 u1 hbd1x]
    have hcell0x : getCell (setCell u1 1
        ((B.map (wbHand (C := C))).length : Int)) 0 <
        ((A1.length + 1 : Nat) : Int) := by
      show (u1.cells.set 1 _).getD 0 0 < _
      rw [getD_set_ne _ _ _ _ _ (by omega : (1 : Nat) ≠ 0), hcell0]
      exact_mod_cast Nat.lt_succ_self A1.length
    have hmaster2 := dispatchAux_wb_block mwN none ctx 0 [] A2 (A2.length + 1)
        (A1.length + 1)
        (setCell u1 1 ((B.map (wbHand (C := C))).length : Int))
        (by omega) (by simp [setCell, hlen1]) hcell0x (by simpa using hdropN)
    rw [hmaster2]
    have e1 : (A2.length + 1) - A2.length = 1 := by omega
    have e2 : (A1.length + 1) + A2.length = mwN.length := by omega
    rw [e1, e2]
    have hmaster2F := dispatchAux_wb_block mwF none ctx 0 [] A2 (A2.length + 1)
        (A1.length + B.length) u2
        (by omega) hr2 hbd2 (by simpa using hdropF2)
    rw [hmaster2F, e1]
    have e3 : (A1.length + B.length) + A2.length = mwF.length := by omega
    rw [e3]
    exact wbBlock_congr A2 (dispatchAux mwN none ctx 0 1 mwN.length)
      (dispatchAux mwF none ctx 0 1 mwF.length)
      (fun cs => cs.length = 2) (fun cs => cs.length = 1) 0 0
      (A1.length + 1) (A1.length + B.length)
      (setCell u1 1 ((B.map (wbHand (C := C))).length : Int)) u2
      hlog (by simp [setCell, hlen1]) hP2 hcell0x hbd2
      (by simp [setCell, hlen1]) hr2
      (fun cs v h => by simpa using h) (fun cs v h => by simpa using h)
      hagree3
  -- agreement of the two dispatches at the position of the nested unit: the
  -- unit invokes the inner pipeline on a fresh cursor cell with the outer
  -- bound proceed callable as terminal continuation
  have hagree1 : ∀ t1 t2 : PState E, t1.log = t2.log →
      t1.cells.length = 1 → t2.cells.length = 1 →
      getCell t1 0 < ((0 + A1.length : Nat) : Int) →
      getCell t2 0 < ((0 + A1.length : Nat) : Int) →
      0 < t1.cells.length → 0 < t2.cells.length →
      ((dispatchAux mwN none ctx 0 (mwN.length + 1 - A1.length)
          (0 + A1.length) t1).1.log =
        (dispatchAux mwF none ctx 0 (mwF.length + 1 - A1.length)
          (0 + A1.length) t2).1.log ∧
       (dispatchAux mwN none ctx 0 (mwN.length + 1 - A1.length)
          (0 + A1.length) t1).2 =
        (dispatchAux mwF none ctx 0 (mwF.length + 1 - A1.length)
          (0 + A1.length) t2).2) := by
    intro t1 t2 hlog hl1 hl2 hb1 hb2 hp1 hp2
    have ei : (0 : Nat) + A1.length = A1.length := by omega
    rw [ei] at hb1 hb2 ⊢
    have efN : mwN.length + 1 - A1.length = (A2.length + 1) + 1 := by omega
    rw [efN]
    obtain ⟨c1, hc1⟩ := List.length_eq_one.mp hl1
    have hguard1 : ¬ ((A1.length : Int) ≤ getCell t1 0) := not_le.mpr hb1
    have hkneN : ¬ (A1.length = mwN.length) := by omega
    have hstep : dispatchAux mwN none ctx 0 ((A2.length + 1) + 1) A1.length t1 =
        composeRun (B.map wbHand)
          (some (handOfM (dispatchAux mwN none ctx 0 (A2.length + 1)
            (A1.length + 1)))) ctx (setCell t1 0 (A1.length : Int)) := by
      simp only [dispatchAux, if_neg hguard1, if_neg hkneN, hgetkN, composeHand]
    rw [hstep]
    have hsetc : setCell t1 0 ((A1.length : Nat) : Int) =
        ⟨[(A1.length : Int)], t1.log⟩ := by
      simp [setCell, hc1, List.set]
    rw [hsetc]
    unfold composeRun
    simp only [List.length_cons, List.length_nil, List.cons_append,
      List.nil_append]
    have hmB := dispatchAux_wb_block (B.map (wbHand (C := C)))
        (some (handOfM (dispatchAux mwN none ctx 0 (A2.length + 1)
          (A1.length + 1)))) ctx 1 [] B
        ((B.map (wbHand (C := C))).length + 1) 0
        ⟨[(A1.length : Int), -1], t1.log⟩
        (by omega) (by simp) (by simp [getCell]) (by simp)
    rw [hmB]
    have eB : ((B.map (wbHand (C := C))).length + 1) - B.length = 1 := by simp
    have eI : (0 : Nat) + B.length = (B.map (wbHand (C := C))).length := by simp
    rw [eB, eI]
    have hmF := dispatchAux_wb_block mwF none ctx 0 (A2.map wbHand) B
        (mwF.length + 1 - A1.length) A1.length t2
        (by omega) hp2 hb2 hdropF1
    rw [hmF]
    have eF : (mwF.length + 1 - A1.length) - B.length = A2.length + 1 := by omega
    rw [eF]
    exact wbBlock_congr B
      (dispatchAux (B.map wbHand)
        (some (handOfM (dispatchAux mwN none ctx 0 (A2.length + 1)
          (A1.length + 1)))) ctx 1 1 (B.map (wbHand (C := C))).length)
      (dispatchAux mwF none ctx 0 (A2.length + 1) (A1.length + B.length))
      (fun cs => cs.length = 2 ∧ cs.getD 0 0 = (A1.length : Int))
      (fun cs => cs.length = 1) 1 0 0 A1.length
      ⟨[(A1.length : Int), -1], t1.log⟩ t2
      hlog ⟨rfl, rfl⟩ hl2 (by simp [getCell]) hb2 (by simp) hp2
      (fun cs v h => ⟨by simpa using h.1,
        (getD_set_ne cs 1 0 v 0 (by omega)).trans h.2⟩)
      (fun cs v h => by simpa using h)
      hagree2
  -- assemble: both invocations start at index 0 on a fresh singleton store
  unfold composeRun
  simp only [List.nil_append, List.length_nil]
  have hbN := dispatchAux_wb_block mwN none ctx 0
      (composeHand (B.map wbHand) :: A2.map wbHand) A1 (mwN.length + 1) 0
      ⟨[-1], []⟩ (by omega) (by simp) (by simp [getCell]) (by simp [hmwN])
  have hbF := dispatchAux_wb_block mwF none ctx 0
      (B.map wbHand ++ A2.map wbHand) A1 (mwF.length + 1) 0
      ⟨[-1], []⟩ (by omega) (by simp) (by simp [getCell])
      (by simp [hmwF])
  rw [hbN, hbF]
  exact wbBlock_congr A1
    (dispatchAux mwN none ctx 0 (mwN.length + 1 - A1.length) (0 + A1.length))
    (dispatchAux mwF none ctx 0 (mwF.length + 1 - A1.length) (0 + A1.length))
    (fun cs => cs.length = 1) (fun cs => cs.length = 1) 0 0 0 0
    ⟨[-1], []⟩ ⟨[-1], []⟩ rfl rfl rfl (by simp [getCell]) (by simp [getCell])
    (by simp) (by simp)
    (fun cs v h => by simpa using h) (fun cs v h => by simpa using h)
    hagree1

/-! ### JSON values and serialization (the external JSON.stringify used by
`respond` and `koa-is-json`) -/

mutual

/-- A JSON-serializable structured value. -/
inductive JVal where
  | jnull : JVal
  | jbool : Bool → JVal
  | jnum : Int → JVal
  | jstr : String → JVal
  | jarr : JList → JVal
  | jobj : JFields → JVal

/-- The elements of a JSON array. -/
inductive JList where
  | nil : JList
  | cons : JVal → JList → JList

/-- The key/value fields of a JSON object. -/
inductive JFields where
  | nil : JFields
  | cons : String → JVal → JFields → JFields

end

/-- Minimal JSON string escaping (quote, backslash, and the common control
characters). -/
def escapeChar (c : Char) : String :=
  if c = '"' then "\\\""
  else if c = '\\' then "\\\\"
  else if c = '\n' then "\\n"
  else if c = '\t' then "\\t"
  else if c = '\r' then "\\r"
  else String.singleton c

def escapeString (s : String) : String :=
  String.join (s.toList.map escapeChar)

mutual

/-- Model of `JSON.stringify` on the structured values. -/
def jstringify : JVal → String
  | JVal.jnull => "null"
  | JVal.jbool true => "true"
  | JVal.jbool false => "false"
  | JVal.jnum n => toString n
  | JVal.jstr s => "\"" ++ escapeString s ++ "\""
  | JVal.jarr l => "[" ++ jstringifyList l ++ "]"
  | JVal.jobj l => "\x7b" ++ jstringifyFields l ++ "\x7d"

/-- The comma-separated serializations of array elements. -/
def jstringifyList : JList → String
  | JList.nil => ""
  | JList.cons x JList.nil => jstringify x
  | JList.cons x (JList.cons y tl) =>
      jstringify x ++ "," ++ jstringifyList (JList.cons y tl)

/-- The comma-separated serializations of object fields. -/
def jstringifyFields : JFields → String
  | JFields.nil => ""
  | JFields.cons k v JFields.nil =>
      "\"" ++ escapeString k ++ "\":" ++ jstringify v
  | JFields.cons k v (JFields.cons k2 v2 tl) =>
      "\"" ++ escapeString k ++ "\":" ++ jstringify v ++ "," ++
        jstringifyFields (JFields.cons k2 v2 tl)

end

/-- Model of `Buffer.byteLength` of a text with the default utf-8 encoding. -/
def byteLength (s : String) : Nat :=
  s.utf8ByteSize

/-! ### Response bodies and the finalizer `respond` -/

/-- The runtime shapes `respond` distinguishes for `ctx.body`. -/
inductive Body where
  | undef : Body
  | nullv : Body
  | str : String → Body
  | buffer : List Nat → Body
  | stream : Body
  | json : JVal → Body

/-- JavaScript truthiness of a body value (structured values represent
objects and arrays and the scalars `jbool`/`jnum`; `false` and `0` are
falsy). -/
def Body.truthy : Body → Bool
  | Body.undef => false
  | Body.nullv => false
  | Body.str s => decide (s ≠ "")
  | Body.buffer _ => true
  | Body.stream => true
  | Body.json (JVal.jbool false) => false
  | Body.json (JVal.jnum 0) => false
  | Body.json JVal.jnull => false
  | Body.json _ => true

/-- Model of `koa-is-json`: a body is serialized as JSON when it is truthy and is not
a string, has no `pipe` function (stream) and is not a `Buffer`. -/
def isJSON (b : Body) : Bool :=
  if !b.truthy then false
  else
    match b with
    | Body.str _ => false
    | Body.stream => false
    | Body.buffer _ => false
    | _ => true

/-- The loose equality `null == body` (true for `null` and `undefined`). -/
def looseNullBody : Body → Bool
  | Body.undef => true
  | Body.nullv => true
  | _ => false

/-- Serialization `JSON.stringify` on a body, used by `respond` only under the `isJSON`
guard or in the final structured branch, where the body is `Body.json`. -/
def jsonStringifyBody : Body → String
  | Body.json j => jstringify j
  | Body.str s => jstringify (JVal.jstr s)
  | _ => "null"

/-- Model of `statuses.empty`: the body-forbidden status codes of the `statuses`
registry (204, 205, 304). -/
def statusEmpty (c : Nat) : Bool :=
  c == 204 || c == 205 || c == 304

/-- A JavaScript value as stored on `ctx.respond` (the write-once escape
hatch); the bypass test in the source is the strict `false === ctx.respond`. -/
inductive JsVal where
  | undef : JsVal
  | nullv : JsVal
  | bool : Bool → JsVal
  | num : Int → JsVal
  | str : String → JsVal
deriving DecidableEq

/-- The context state `respond` consumes: the escape-hatch flag, the
writability of the transport, status, body, request method, whether the
response headers were already sent, the inbound HTTP major version, and the
status reason phrase `ctx.message` (absent when the registry has none). -/
structure RCtx where
  respondV : JsVal
  writable : Bool
  status : Nat
  body : Body
  method : String
  headersSent : Bool
  httpVersionMajor : Nat
  message : Option String

/-- The terminating write performed on the outbound transport. -/
inductive WriteAct where
  | noWrite : WriteAct
  | endEmpty : WriteAct
  | endStr : String → WriteAct
  | endBuf : List Nat → WriteAct
  | pipeStream : WriteAct
deriving DecidableEq

/-- Payload bytes written by a terminating write. -/
def payloadBytes : WriteAct → Nat
  | WriteAct.endStr s => byteLength s
  | WriteAct.endBuf d => d.length
  | _ => 0

/-- The observable outcome of `respond`: the terminating write, the final
`ctx.body`, and the content-length and content-type headers when it sets
them. -/
structure RespondOut where
  write : WriteAct
  bodyAfter : Body
  lengthSet : Option Nat
  typeSet : Option String

/-- The body of `respond(ctx)` after the bypass check: writability check,
then the body-serialization decision table in source order — body-forbidden
status, HEAD, absent body, buffer, string, stream, JSON. -/
def respondCore (ctx : RCtx) : RespondOut :=
  if !ctx.writable then ⟨WriteAct.noWrite, ctx.body, none, none⟩
  else
    let body := ctx.body
    let code := ctx.status
    if statusEmpty code then
      -- ignore body: `ctx.body = null; return res.end()`
      ⟨WriteAct.endEmpty, Body.nullv, none, none⟩
    else if ctx.method = "HEAD" then
      if !ctx.headersSent && isJSON body then
        ⟨WriteAct.endEmpty, body, some (byteLength (jsonStringifyBody body)), none⟩
      else ⟨WriteAct.endEmpty, body, none, none⟩
    else if looseNullBody body then
      let text := if ctx.httpVersionMajor ≥ 2 then toString code
        else
          match ctx.message with
          | some m => if m = "" then toString code else m
          | none => toString code
      if !ctx.headersSent then
        ⟨WriteAct.endStr text, body, some (byteLength text), some "text"⟩
      else ⟨WriteAct.endStr text, body, none, none⟩
    else
      match body with
      | Body.buffer d => ⟨WriteAct.endBuf d, body, none, none⟩
      | Body.str s => ⟨WriteAct.endStr s, body, none, none⟩
      | Body.stream => ⟨WriteAct.pipeStream, body, none, none⟩
      | b =>
          let text := jsonStringifyBody b
          if !ctx.headersSent then
            ⟨WriteAct.endStr text, b, some (byteLength text), none⟩
          else ⟨WriteAct.endStr text, b, none, none⟩

/-- The finalizer `respond(ctx)`: bypass when the escape hatch holds exactly the boolean
`false` (`false === ctx.respond`), otherwise run the decision table. -/
def respond (ctx : RCtx) : RespondOut :=
  if ctx.respondV = JsVal.bool false then ⟨WriteAct.noWrite, ctx.body, none, none⟩
  else respondCore ctx

/-! ### The request dispatcher: `handleRequest` -/

/-- The terminal actions of one request: response finalization, or error
handling of a failure. -/
inductive TAct where
  | finalize : TAct
  | errorHandle : String → TAct
deriving DecidableEq

/-- Modelled from the spec: the context error handler `ctx.onerror` lives in
context.js, which is not among the sources — only its caller `handleRequest`
is.  The spec has the dispatcher route a connection closed or aborted before
completion "as an error through the same error path used for handler
failures", and assigns no action to the finalization observer's error-free
notification on an ordinary finish: the handler invoked without an error
performs nothing, invoked with an error it performs the error-handle
terminal action. -/
def ctxOnerrorActs : Option String → List TAct
  | none => []
  | some e => [TAct.errorHandle e]

/-- One invocation of a terminal callable during a request: the finalizer
`respond(ctx)` together with the outcome it computes, or the context error
handler `ctx.onerror` with its argument (`none` models the observer's
error-free normal-finish notification). -/
inductive RInv where
  | respondRun : RespondOut → RInv
  | onerrorRun : Option String → RInv

/-- The promise chain of `handleRequest` at the pipeline settlement:
`fnMiddleware(ctx).then(handleResponse).catch(onerror)`, with
`handleResponse = () => respond(ctx)` and `onerror = err => ctx.onerror(err)`:
the finalizer is invoked on resolution, the error handler on rejection. -/
def settledChainInvs (ctx : RCtx) (pres : Except String Unit) : List RInv :=
  match pres with
  | Except.ok _ => [RInv.respondRun (respond ctx)]
  | Except.error e => [RInv.onerrorRun (some e)]

/-- The terminal-callable invocations of one request handled by
`handleRequest`: besides the promise chain, the source registers
`onFinished(res, onerror)`, an observer that fires exactly once — with the
synthetic error at a premature close of the transport, before the late
pipeline settlement whose chain still runs, or with no error once the
response ends on the ordinary path. -/
def handleRequestInvs (ctx : RCtx) (close : Option String)
    (pres : Except String Unit) : List RInv :=
  match close with
  | some e => RInv.onerrorRun (some e) :: settledChainInvs ctx pres
  | none => settledChainInvs ctx pres ++ [RInv.onerrorRun none]

/-- An invocation of the finalizer. -/
def isRespondInv : RInv → Bool
  | RInv.respondRun _ => true
  | _ => false

/-- An invocation of the error handler carrying an actual failure. -/
def isFailureHandleInv : RInv → Bool
  | RInv.onerrorRun (some _) => true
  | _ => false

/-- C3 counterexample: on a request whose transport closes prematurely (the
registered finalization observer fires the synthetic error) and whose
pipeline later resolves, `handleRequest` runs BOTH terminal callables — the
error handler with a failure and the finalizer — and when the late
settlement is instead a rejection the error handler runs twice with a
failure; the claimed "never both for one request, and neither runs twice"
fails on these executions. -/
theorem handleRequest_premature_close_both :
    ((handleRequestInvs ⟨JsVal.undef, false, 404, Body.nullv, "GET", false, 1,
        none⟩ (some "premature close") (Except.ok ())).countP isRespondInv = 1 ∧
      (handleRequestInvs ⟨JsVal.undef, false, 404, Body.nullv, "GET", false, 1,
        none⟩ (some "premature close") (Except.ok ())).countP
          isFailureHandleInv = 1) ∧
    (handleRequestInvs ⟨JsVal.undef, false, 404, Body.nullv, "GET", false, 1,
        none⟩ (some "premature close") (Except.error "boom")).countP
          isFailureHandleInv = 2 := by
  refine ⟨⟨rfl, rfl⟩, rfl⟩

/-- C3 (amended): for every request whose transport does not close
prematurely, exactly one of the two terminal actions occurs — the finalizer
alone on resolution, the error handler with the failure alone on rejection —
never both and neither twice, and the observer's error-free normal-finish
notification triggers no error handling; when the transport does close
prematurely, the synthetic error is error-handled, and a late resolution
still invokes the finalizer only for it to perform no terminating write on
the no-longer-writable transport. -/
theorem handleRequest_exactly_one (ctx : RCtx) (pres : Except String Unit) :
    ((handleRequestInvs ctx none pres).countP isRespondInv +
      (handleRequestInvs ctx none pres).countP isFailureHandleInv = 1) ∧
    ctxOnerrorActs none = [] ∧
    (∀ (e : String) (v : JsVal) (st : Nat) (b : Body) (m : String) (hs : Bool)
        (hv : Nat) (msg : Option String),
      handleRequestInvs ⟨v, false, st, b, m, hs, hv, msg⟩ (some e)
          (Except.ok ()) =
        [RInv.onerrorRun (some e),
          RInv.respondRun (respond ⟨v, false, st, b, m, hs, hv, msg⟩)] ∧
      (respond ⟨v, false, st, b, m, hs, hv, msg⟩).write = WriteAct.noWrite) := by
  refine ⟨?_, rfl, ?_⟩
  · cases pres with
    | ok u => rfl
    | error e => rfl
  · intro e v st b m hs hv msg
    refine ⟨rfl, ?_⟩
    by_cases hb : v = JsVal.bool false
    · simp [respond, hb]
    · simp [respond, hb, respondCore]

/-- C6: for every context that is not bypassed and whose transport is
writable, if the status code is in the body-forbidden set (204, 205, 304),
`respond` sets the body to `null` and ends the response writing zero payload
bytes, regardless of the body value the pipeline had set. -/
theorem respond_body_forbidden (ctx : RCtx)
    (h1 : ctx.respondV ≠ JsVal.bool false)
    (h2 : ctx.writable = true)
    (h3 : statusEmpty ctx.status = true) :
    respond ctx = ⟨WriteAct.endEmpty, Body.nullv, none, none⟩ ∧
    payloadBytes (respond ctx).write = 0 := by
  have hcore : respond ctx = ⟨WriteAct.endEmpty, Body.nullv, none, none⟩ := by
    simp [respond, h1, respondCore, h2, h3]
  rw [hcore]
  exact ⟨rfl, rfl⟩

theorem respond_body_forbidden_witness :
    ((⟨JsVal.undef, true, 204, Body.str "hi", "GET", false, 1, none⟩ :
        RCtx).respondV ≠ JsVal.bool false ∧
      (⟨JsVal.undef, true, 204, Body.str "hi", "GET", false, 1, none⟩ :
        RCtx).writable = true ∧
      statusEmpty (⟨JsVal.undef, true, 204, Body.str "hi", "GET", false, 1,
        none⟩ : RCtx).status = true) ∧
    (respond ⟨JsVal.undef, true, 204, Body.str "hi", "GET", false, 1, none⟩ =
        ⟨WriteAct.endEmpty, Body.nullv, none, none⟩ ∧
      payloadBytes (respond ⟨JsVal.undef, true, 204, Body.str "hi", "GET",
        false, 1, none⟩).write = 0) :=
  ⟨⟨by decide, rfl, by decide⟩,
    respond_body_forbidden _ (by decide) rfl (by decide)⟩

/-- C7: for every context with request method HEAD that is not bypassed,
writable, and whose status is not body-forbidden, `respond` ends the
response writing zero payload bytes; when the headers are unsent and the
body is JSON-serializable it first sets the content-length header to the
byte length of the JSON serialization of the body; for the body
`«a» = 1` that byte length is 7, the length of the text produced for it. -/
theorem respond_head_zero_payload (ctx : RCtx)
    (h1 : ctx.respondV ≠ JsVal.bool false)
    (h2 : ctx.writable = true)
    (h3 : statusEmpty ctx.status = false)
    (h4 : ctx.method = "HEAD") :
    (respond ctx).write = WriteAct.endEmpty ∧
    payloadBytes (respond ctx).write = 0 ∧
    (ctx.headersSent = false → isJSON ctx.body = true →
      (respond ctx).lengthSet = some (byteLength (jsonStringifyBody ctx.body))) ∧
    byteLength (jstringify (JVal.jobj
      (JFields.cons "a" (JVal.jnum 1) JFields.nil))) = 7 := by
  have hbranch : respond ctx =
      if !ctx.headersSent && isJSON ctx.body then
        ⟨WriteAct.endEmpty, ctx.body,
          some (byteLength (jsonStringifyBody ctx.body)), none⟩
      else ⟨WriteAct.endEmpty, ctx.body, none, none⟩ := by
    simp [respond, h1, respondCore, h2, h3, h4]
  rw [hbranch]
  by_cases hcond : (!ctx.headersSent && isJSON ctx.body) = true
  · rw [if_pos hcond]
    exact ⟨rfl, rfl, fun _ _ => rfl, by decide⟩
  · rw [if_neg hcond]
    refine ⟨rfl, rfl, ?_, by decide⟩
    intro hhs hj
    exact absurd (by simp [hhs, hj]) hcond

theorem respond_head_zero_payload_witness :
    ((⟨JsVal.undef, true, 200, Body.json (JVal.jobj (JFields.cons "a"
        (JVal.jnum 1) JFields.nil)), "HEAD", false, 1, none⟩ :
        RCtx).respondV ≠ JsVal.bool false ∧
      statusEmpty 200 = false) ∧
    ((respond ⟨JsVal.undef, true, 200, Body.json (JVal.jobj (JFields.cons "a"
        (JVal.jnum 1) JFields.nil)), "HEAD", false, 1, none⟩).write =
        WriteAct.endEmpty ∧
      payloadBytes (respond ⟨JsVal.undef, true, 200, Body.json (JVal.jobj
        (JFields.cons "a" (JVal.jnum 1) JFields.nil)), "HEAD", false, 1,
        none⟩).write = 0 ∧
      ((⟨JsVal.undef, true, 200, Body.json (JVal.jobj (JFields.cons "a"
          (JVal.jnum 1) JFields.nil)), "HEAD", false, 1, none⟩ :
          RCtx).headersSent = false →
        isJSON (⟨JsVal.undef, true, 200, Body.json (JVal.jobj (JFields.cons "a"
          (JVal.jnum 1) JFields.nil)), "HEAD", false, 1, none⟩ :
          RCtx).body = true →
        (respond ⟨JsVal.undef, true, 200, Body.json (JVal.jobj (JFields.cons "a"
          (JVal.jnum 1) JFields.nil)), "HEAD", false, 1, none⟩).lengthSet =
          some (byteLength (jsonStringifyBody (⟨JsVal.undef, true, 200,
            Body.json (JVal.jobj (JFields.cons "a" (JVal.jnum 1) JFields.nil)),
            "HEAD", false, 1, none⟩ : RCtx).body))) ∧
      byteLength (jstringify (JVal.jobj
        (JFields.cons "a" (JVal.jnum 1) JFields.nil))) = 7) :=
  ⟨⟨by decide, by decide⟩,
    respond_head_zero_payload _ (by decide) rfl (by decide) rfl⟩

/-- C10: the finalizer bypass triggers exactly when `ctx.respond` is the
boolean value `false` under strict equality: with `false` there the bypass
performs no write and leaves the body alone, while for every other value —
undefined, null, 0 or the empty string included — `respond` proceeds to the
writability check and the decision table (witnessed on a writable 204
context, where it then clears the body and ends the response). -/
theorem respond_bypass_strict_false :
    (∀ ctx : RCtx, ctx.respondV = JsVal.bool false →
      respond ctx = ⟨WriteAct.noWrite, ctx.body, none, none⟩) ∧
    (∀ ctx : RCtx, ctx.respondV ≠ JsVal.bool false →
      respond ctx = respondCore ctx) ∧
    (∀ (v : JsVal) (b : Body) (m : String) (hs : Bool) (hv : Nat)
        (msg : Option String), v ≠ JsVal.bool false →
      respond ⟨v, true, 204, b, m, hs, hv, msg⟩ =
        ⟨WriteAct.endEmpty, Body.nullv, none, none⟩) ∧
    (∀ (b : Body) (m : String) (hs : Bool) (hv : Nat) (msg : Option String),
      respond ⟨JsVal.bool false, true, 204, b, m, hs, hv, msg⟩ =
        ⟨WriteAct.noWrite, b, none, none⟩) := by
  refine ⟨?_, ?_, ?_, ?_⟩
  · intro ctx h
    simp [respond, h]
  · intro ctx h
    simp [respond, h]
  · intro v b m hs hv msg h
    simp [respond, h, respondCore, statusEmpty]
  · intro b m hs hv msg
    simp [respond]

theorem respond_bypass_strict_false_witness :
    (JsVal.nullv ≠ JsVal.bool false) ∧
    respond ⟨JsVal.nullv, true, 204, Body.str "x", "GET", false, 1, none⟩ =
      ⟨WriteAct.endEmpty, Body.nullv, none, none⟩ :=
  ⟨by decide, respond_bypass_strict_false.2.2.1 JsVal.nullv (Body.str "x")
    "GET" false 1 none (by decide)⟩

/-! ### The application error handler `onerror` -/

/-- The attributes of a proper error object that `onerror` consults. -/
structure ErrObj where
  status : Option Int
  expose : Bool
  stack : Option String
  message : String
deriving DecidableEq

/-- The argument of `onerror`: a proper error object, or any other thrown
value (`err instanceof Error` fails). -/
inductive ErrInput where
  | errObj : ErrObj → ErrInput
  | nonError : JsVal → ErrInput
deriving DecidableEq

/-- The observable behavior of `onerror`: throw a `TypeError`, return with
no diagnostic output, or write a diagnostic text. -/
inductive OnerrorOut where
  | thrownTypeError : String → OnerrorOut
  | quiet : OnerrorOut
  | logged : String → OnerrorOut
deriving DecidableEq

/-- Model of the formatting of a non-error scalar value by the percent-j directive. -/
def jsonOfJsVal : JsVal → String
  | JsVal.undef => "undefined"
  | JsVal.nullv => "null"
  | JsVal.bool true => "true"
  | JsVal.bool false => "false"
  | JsVal.num n => toString n
  | JsVal.str s => "\"" ++ escapeString s ++ "\""

/-- Model of `err.toString()` of an error object. -/
def errToString (e : ErrObj) : String :=
  if e.message = "" then "Error" else "Error: " ++ e.message

/-- The diagnostic text `err.stack || err.toString()`. -/
def errText (e : ErrObj) : String :=
  match e.stack with
  | some st => if st = "" then errToString e else st
  | none => errToString e

/-- Indentation of every line by two spaces, as the replace call does. -/
def indentLines (s : String) : String :=
  String.intercalate "\n" ((s.splitOn "\n").map (fun l => "  " ++ l))

/-- The application's default error handler: re-throw a `TypeError` on a
non-error value; return silently for status 404 or exposed errors, and for a
silent application; otherwise write the indented diagnostic text. -/
def onerror (silent : Bool) (err : ErrInput) : OnerrorOut :=
  match err with
  | ErrInput.nonError v =>
      OnerrorOut.thrownTypeError ("non-error thrown: " ++ jsonOfJsVal v)
  | ErrInput.errObj e =>
      if e.status = some 404 ∨ e.expose = true then OnerrorOut.quiet
      else if silent then OnerrorOut.quiet
      else OnerrorOut.logged (indentLines (errText e))

/-- C8: `onerror` on any non-error value (a plain string in particular)
always throws a `TypeError`, whatever the application configuration; error
values with status 404 or with the expose mark, and every error when the
application is silent, produce no diagnostic output. -/
theorem onerror_non_error_and_suppression :
    (∀ (silent : Bool) (v : JsVal),
      onerror silent (ErrInput.nonError v) =
        OnerrorOut.thrownTypeError ("non-error thrown: " ++ jsonOfJsVal v)) ∧
    (∀ (silent : Bool) (e : ErrObj),
      e.status = some 404 ∨ e.expose = true →
      onerror silent (ErrInput.errObj e) = OnerrorOut.quiet) ∧
    (∀ e : ErrObj, onerror true (ErrInput.errObj e) = OnerrorOut.quiet) := by
  refine ⟨?_, ?_, ?_⟩
  · intro silent v
    rfl
  · intro silent e h
    simp [onerror, h]
  · intro e
    by_cases h : e.status = some 404 ∨ e.expose = true
    · simp [onerror, h]
    · simp [onerror, h]

theorem onerror_non_error_and_suppression_witness :
    ((some 404 : Option Int) = some 404 ∨ false = true) ∧
    onerror false (ErrInput.errObj ⟨some 404, false, none, "boom"⟩) =
      OnerrorOut.quiet :=
  ⟨Or.inl rfl, onerror_non_error_and_suppression.2.1 false
    ⟨some 404, false, none, "boom"⟩ (Or.inl rfl)⟩

end Koa
